import Mathlib

/-!
Verification of the statistics adapter in
`src/Telegram/SourceFiles/api/api_statistics.cpp` (namespace `Api`).

The C++ code is shallowly embedded: wire-format values (`MTPStatsGraph`,
`MTPStatsAbsValueAndPrev`, `MTPmessages_Messages`, ...) become inductive
types carrying exactly the fields the code reads; the decode functions
(`StatisticalGraphFromTL`, `StatisticalValueFromTL`, the `done` handlers
of `PublicForwards::requestMessage` / `requestStory`, ...) become pure
Lean functions; the stateful pieces (the zoom deque of
`Statistics::requestZoom`, the per-shard request ledger of
`StatisticsRequestSender`) become explicit state-passing step functions.
Machine ints are modelled as `Int` (the code performs no wrapping
arithmetic on the paths treated here) and the `double` arithmetic of the
percentage computations is modelled over `ℚ`.
-/

namespace ApiStatistics

/-! ### StatisticalValueFromTL (api_statistics.cpp lines 42-53) -/

/-- Mirror of `Data::StatisticalValue`: the decoded
current/previous/growth-rate triple.  The C++ `float64` growth rate is
modelled over `ℚ`. -/
structure StatisticalValue where
  value : Int := 0
  previousValue : Int := 0
  growthRatePercentage : ℚ := 0
deriving DecidableEq

/-- Embedding of `StatisticalValueFromTL`: reads `current` and `previous`
from the wire value and computes
`previous ? std::abs((current - previous) / float64(previous) * 100.) : 0`. -/
def StatisticalValueFromTL (current previous : Int) : StatisticalValue :=
  { value := current
    previousValue := previous
    growthRatePercentage :=
      if previous = 0 then 0
      else |((current : ℚ) - (previous : ℚ)) / (previous : ℚ) * 100| }

/-! ### StatisticalGraphFromTL (api_statistics.cpp lines 22-40) -/

/-- Wire shape `MTPStatsGraph`: a decoded graph with JSON payload and an
optional zoom token, an async token, or an error. -/
inductive MTPStatsGraph where
  | statsGraph (json : String) (zoomToken : Option String)
  | statsGraphAsync (token : String)
  | statsGraphError (error : String)
deriving DecidableEq

/-- Mirror of `Data::StatisticalGraph`.  The `chart` field models the
`Data::StatisticalChart` produced by the external
`Statistic::StatisticalChartFromJSON`; we retain the JSON payload that the
code hands to that decoder (`some json` = a chart was decoded and
stored). -/
structure StatisticalGraph where
  chart : Option String := none
  zoomToken : String := ""
  error : String := ""
deriving DecidableEq

/-- Embedding of `StatisticalGraphFromTL`: the `statsGraph` arm stores the
decoded chart together with `zoom_token` when present (empty otherwise),
the `statsGraphAsync` arm stores only the token, the `statsGraphError`
arm stores only the error text. -/
def StatisticalGraphFromTL : MTPStatsGraph → StatisticalGraph
  | .statsGraph json zoomToken =>
      { chart := some json, zoomToken := zoomToken.getD "" }
  | .statsGraphAsync token => { zoomToken := token }
  | .statsGraphError e => { error := e }

/-- The chart variant of a `StatisticalGraph` is populated. -/
def chartPopulated (g : StatisticalGraph) : Prop := g.chart ≠ none

/-- The zoom-token variant of a `StatisticalGraph` is populated. -/
def zoomTokenPopulated (g : StatisticalGraph) : Prop := g.zoomToken ≠ ""

/-- The error variant of a `StatisticalGraph` is populated. -/
def errorPopulated (g : StatisticalGraph) : Prop := g.error ≠ ""

/-- Number of populated variants of a `StatisticalGraph`. -/
def populatedVariantCount (g : StatisticalGraph) : Nat :=
  (if g.chart = none then 0 else 1)
    + (if g.zoomToken = "" then 0 else 1)
    + (if g.error = "" then 0 else 1)

/-! ### Boosts::request premium-audience arithmetic (lines 703-731) -/

/-- The `premium_audience` payload of `premium.getBoostsStatus`: a
`statsPercentValue` with `part` and `total`. -/
structure PremiumAudience where
  part : Int
  total : Int
deriving DecidableEq

/-- `premiumMemberCount` as computed by `Boosts::request`:
`hasPremium ? std::max(0, int(part)) : 0`. -/
def premiumMemberCountOf : Option PremiumAudience → Int
  | some a => max 0 a.part
  | none => 0

/-- `participantCount` as computed by `Boosts::request`:
`hasPremium ? std::max(int(total), premiumMemberCount) : 0`. -/
def participantCountOf : Option PremiumAudience → Int
  | some a => max a.total (premiumMemberCountOf (some a))
  | none => 0

/-- `premiumMemberPercentage` as computed by `Boosts::request`:
`(participantCount > 0) ? (100. * premiumMemberCount / participantCount) : 0`,
modelled over `ℚ`. -/
def premiumMemberPercentageOf (pa : Option PremiumAudience) : ℚ :=
  if 0 < participantCountOf pa then
    100 * (premiumMemberCountOf pa : ℚ) / (participantCountOf pa : ℚ)
  else 0

/-! ### PublicForwards pagination (lines 352-527) -/

/-- Mirror of `FullMsgId`: a (peer, message) pair. -/
structure FullMsgId where
  peer : Int
  msg : Int
deriving DecidableEq

/-- Mirror of `FullStoryId`: a (peer, story) pair. -/
structure FullStoryId where
  peer : Int
  story : Int
deriving DecidableEq

/-- Mirror of `Data::PublicForwardsSlice::OffsetToken`: the continuation
cursor with the message-path fields (`fullId`, `rate`) and the story-path
field (`storyOffset`). -/
structure OffsetToken where
  fullId : FullMsgId := ⟨0, 0⟩
  rate : Int := 0
  storyOffset : String := ""
deriving DecidableEq

/-- Mirror of `Data::RecentPostId`: a message id or a story id. -/
structure RecentPostId where
  messageId : Option FullMsgId := none
  storyId : Option FullStoryId := none
deriving DecidableEq

/-- Mirror of `Data::PublicForwardsSlice`. -/
structure PublicForwardsSlice where
  list : List RecentPostId := []
  total : Int := 0
  allLoaded : Bool := false
  token : OffsetToken := {}
deriving DecidableEq

/-- The fields of a wire `MTPMessage` that the handlers read through
`IdFromMessage` / `PeerFromMessage` / `DateFromMessage`. -/
structure WireMessage where
  msgId : Int
  peerId : Int
  date : Int
deriving DecidableEq

/-- Wire shape `MTPmessages_Messages` with the fields each arm of the
`result.match` in `PublicForwards::requestMessage` reads. -/
inductive MTPmessages_Messages where
  | messages (msgs : List WireMessage)
  | messagesSlice (nextRate : Option Int) (count : Int) (msgs : List WireMessage)
  | channelMessages (count : Int) (msgs : List WireMessage)
  | messagesNotModified
deriving DecidableEq

/-- Embedding of the `process` lambda of `PublicForwards::requestMessage`:
walks the message list, keeps messages whose source peer is loaded
(`peerLoaded`) and whose date is non-zero, and records the `fullId` of the
last kept message into the next token (default `(0, 0)` when none is
kept, matching the default-constructed `OffsetToken`). -/
def processMessages (peerLoaded : Int → Bool) (msgs : List WireMessage) :
    List RecentPostId × FullMsgId :=
  msgs.foldl
    (fun acc m =>
      if peerLoaded m.peerId = true ∧ m.date ≠ 0 then
        (acc.1 ++ [{ messageId := some ⟨m.peerId, m.msgId⟩ }], ⟨m.peerId, m.msgId⟩)
      else acc)
    ([], ⟨0, 0⟩)

/-- Embedding of the `done` handler of `PublicForwards::requestMessage`
(lines 388-458): decodes the four response shapes into a slice, computes
`allLoaded` and `fullCount` per shape, and updates the running total with
`_lastTotal = std::max(_lastTotal, fullCount)`.  Returns the delivered
slice together with the new `_lastTotal`. -/
def requestMessageDone (peerLoaded : Int → Bool) (token : OffsetToken)
    (lastTotal : Int) (resp : MTPmessages_Messages) :
    PublicForwardsSlice × Int :=
  match resp with
  | .messages msgs =>
      let p := processMessages peerLoaded msgs
      let newTotal := max lastTotal (p.1.length : Int)
      ({ list := p.1, total := newTotal, allLoaded := true,
         token := { fullId := p.2 } }, newTotal)
  | .messagesSlice nextRate count msgs =>
      let p := processMessages peerLoaded msgs
      let ra : Int × Bool :=
        match nextRate with
        | some r => if r ≠ token.rate then (r, false) else (0, true)
        | none => (0, false)
      let newTotal := max lastTotal count
      ({ list := p.1, total := newTotal, allLoaded := ra.2,
         token := { fullId := p.2, rate := ra.1 } }, newTotal)
  | .channelMessages count msgs =>
      let p := processMessages peerLoaded msgs
      let newTotal := max lastTotal count
      ({ list := p.1, total := newTotal, allLoaded := true,
         token := { fullId := p.2 } }, newTotal)
  | .messagesNotModified =>
      let newTotal := max lastTotal 0
      ({ list := [], total := newTotal, allLoaded := true, token := {} },
        newTotal)

/-- The `fullCount` each arm of `requestMessage`'s `result.match`
assigns: the processed list's size for the full-list shape, the reported
`count` for the slice and channel shapes, `0` for not-modified. -/
def messageFullCount (peerLoaded : Int → Bool) : MTPmessages_Messages → Int
  | .messages msgs => ((processMessages peerLoaded msgs).1.length : Int)
  | .messagesSlice _ count _ => count
  | .channelMessages count _ => count
  | .messagesNotModified => 0

/-- Wire `MTPStoryItem` as read by `requestStory`: only the `storyItem`
arm is used, every other arm is ignored by the catch-all match. -/
inductive MTPStoryItemWire where
  | storyItem (id : Int)
  | otherItem
deriving DecidableEq

/-- Wire `MTPPublicForward`: a forwarded message or a forwarded story. -/
inductive MTPPublicForward where
  | forwardMessage (msg : WireMessage)
  | forwardStory (peer : Int) (item : MTPStoryItemWire)
deriving DecidableEq

/-- Wire shape `MTPstats_PublicForwards` with the fields
`PublicForwards::requestStory` reads. -/
structure MTPstats_PublicForwards where
  nextOffset : Option String
  count : Int
  forwards : List MTPPublicForward
deriving DecidableEq

/-- Embedding of the `done` handler of `PublicForwards::requestStory`
(lines 472-526): next token from `next_offset.value_or_empty()`,
`allLoaded` when the next offset is empty or unchanged, list built from
both forward kinds, running total updated with
`_lastTotal = std::max(_lastTotal, fullCount)`. -/
def requestStoryDone (peerLoaded : Int → Bool) (token : OffsetToken)
    (lastTotal : Int) (resp : MTPstats_PublicForwards) :
    PublicForwardsSlice × Int :=
  let nextToken : OffsetToken := { storyOffset := resp.nextOffset.getD "" }
  let allLoaded : Bool :=
    (nextToken.storyOffset == "") || (nextToken.storyOffset == token.storyOffset)
  let recentList :=
    resp.forwards.foldl
      (fun acc fw =>
        match fw with
        | .forwardMessage m =>
            if peerLoaded m.peerId = true ∧ m.date ≠ 0 then
              acc ++ [{ messageId := some ⟨m.peerId, m.msgId⟩ }]
            else acc
        | .forwardStory peer item =>
            match item with
            | .storyItem sid => acc ++ [{ storyId := some ⟨peer, sid⟩ }]
            | .otherItem => acc)
      ([] : List RecentPostId)
  let newTotal := max lastTotal resp.count
  ({ list := recentList, total := newTotal, allLoaded := allLoaded,
     token := nextToken }, newTotal)

/-- Successive message-target pages processed by one `PublicForwards`
instance: threads `_lastTotal` through the `done` handlers and collects
the `total` delivered in each slice. -/
def runMessageRequests (peerLoaded : Int → Bool) (lastTotal : Int) :
    List (OffsetToken × MTPmessages_Messages) → List Int
  | [] => []
  | (tok, r) :: rest =>
      let pr := requestMessageDone peerLoaded tok lastTotal r
      pr.1.total :: runMessageRequests peerLoaded pr.2 rest

/-- Successive story-target pages processed by one `PublicForwards`
instance, collecting each delivered `total`. -/
def runStoryRequests (peerLoaded : Int → Bool) (lastTotal : Int) :
    List (OffsetToken × MTPstats_PublicForwards) → List Int
  | [] => []
  | (tok, r) :: rest =>
      let pr := requestStoryDone peerLoaded tok lastTotal r
      pr.1.total :: runStoryRequests peerLoaded pr.2 rest

/-! ### StatisticsRequestSender request tracking (lines 229-276) -/

/-- Inner loop of `StatisticsRequestSender::checkRequests` over one
shard's id set: ids still pending are kept, the others are unregistered
and erased.  Returns (kept, removed). -/
def sweepIds (pending : Nat → Bool) : List Nat → List Nat × List Nat
  | [] => ([], [])
  | j :: rest =>
      let pr := sweepIds pending rest
      if pending j then (j :: pr.1, pr.2) else (pr.1, j :: pr.2)

/-- Outer loop of `checkRequests` over the `_requests` map: sweeps each
shard's ids and erases a shard entry when its set becomes empty.  Returns
the new map and the `(dcId, id)` pairs unregistered from the ledger. -/
def checkRequestsAux (pending : Nat → Bool) :
    List (Nat × List Nat) → List (Nat × List Nat) × List (Nat × Nat)
  | [] => ([], [])
  | (dc, ids) :: rest =>
      let pr := sweepIds pending ids
      let rr := checkRequestsAux pending rest
      ((if pr.1.isEmpty then rr.1 else (dc, pr.1) :: rr.1),
        pr.2.map (fun j => (dc, j)) ++ rr.2)

/-- Result of one run of `StatisticsRequestSender::checkRequests`. -/
structure SweepResult where
  requests : List (Nat × List Nat)
  unregistered : List (Nat × Nat)
  timerCancelled : Bool
deriving DecidableEq

/-- Embedding of `StatisticsRequestSender::checkRequests` (lines
237-258): sweep all shards, then `if (_requests.empty()) _timer.cancel()`. -/
def checkRequests (pending : Nat → Bool) (reqs : List (Nat × List Nat)) :
    SweepResult :=
  let pr := checkRequestsAux pending reqs
  ⟨pr.1, pr.2, pr.1.isEmpty⟩

/-- All `(dcId, id)` pairs held in a `_requests` map. -/
def trackedPairs : List (Nat × List Nat) → List (Nat × Nat)
  | [] => []
  | (dc, ids) :: rest => ids.map (fun j => (dc, j)) ++ trackedPairs rest

/-- Mutable state of a `StatisticsRequestSender`: the `_requests` map and
whether the sweep `_timer` is active. -/
structure TrackerState where
  requests : List (Nat × List Nat)
  timerActive : Bool
deriving DecidableEq

/-- `_requests[dcId].emplace(id)`: insert `id` into the shard's set,
creating the shard entry if absent. -/
def addTracked (dc id : Nat) : List (Nat × List Nat) → List (Nat × List Nat)
  | [] => [(dc, [id])]
  | (d, ids) :: rest =>
      if d = dc then (d, if id ∈ ids then ids else ids ++ [id]) :: rest
      else (d, ids) :: addTracked dc id rest

/-- Destination of the dispatched request:
`.toDC(dcId ? MTP::ShiftDcId(dcId, MTP::kStatsDcShift) : 0)`, where `0`
is the session's default destination.  `ShiftDcId` is external transport
code, so the shifted destination is kept abstract as `statsDc dcId`. -/
inductive RequestDest where
  | statsDc (dcId : Nat)
  | defaultDc
deriving DecidableEq

/-- Observable outcome of one `makeRequest` call: the new tracker state,
the `(dcId, id)` pairs registered in the transport's stats ledger, and
the destination the request is sent to. -/
structure MakeRequestResult where
  state : TrackerState
  registered : List (Nat × Nat)
  dest : RequestDest
deriving DecidableEq

/-- Embedding of `StatisticsRequestSender::makeRequest` (lines 260-276):
when the channel's stats shard id is non-zero the request is registered
in the ledger, tracked in `_requests`, and the sweep timer is started if
idle; otherwise the request is sent to the default destination with no
bookkeeping at all. -/
def makeRequest (s : TrackerState) (dcId id : Nat) : MakeRequestResult :=
  if dcId ≠ 0 then
    { state := { requests := addTracked dcId id s.requests, timerActive := true }
      registered := [(dcId, id)]
      dest := .statsDc dcId }
  else
    { state := s, registered := [], dest := .defaultDc }

/-- Embedding of `~StatisticsRequestSender` (lines 229-235): unregisters
every `(dcId, id)` pair remaining in `_requests`. -/
def unregisterOnDestroy (s : TrackerState) : List (Nat × Nat) :=
  trackedPairs s.requests

/-! ### Statistics::requestZoom zoom deque (lines 310-342)

The deque `_zoomDeque` of one `Statistics` instance is modelled as an
explicit state machine.  Tasks are numbered in submission order (the id
of a task is the number of tasks enqueued before it).  Events are the
three things that can happen to the instance: a new `requestZoom` call
(`enqueue`), the transport resolving the in-flight request successfully
(`succeed`), or with an error (`fail`). -/

/-- State of one `Statistics` instance's zoom machinery:
`queue` is `_zoomDeque` (head first; a task is popped only inside the
`done` handler), `headStarted` records whether the head closure has been
invoked, `inflight` the started-but-unresolved request (as a list so that
single-flight is a provable property, not a typing artifact),
`startedRev` / `erroredRev` / `enqueuedRev` the history of task starts,
consumer error notifications and submissions (most recent first). -/
structure ZoomState where
  queue : List Nat
  headStarted : Bool
  inflight : List Nat
  startedRev : List Nat
  erroredRev : List Nat
  enqueuedRev : List Nat
deriving DecidableEq

/-- The freshly constructed `Statistics` instance: empty deque. -/
def ZoomState.start : ZoomState := ⟨[], false, [], [], [], []⟩

/-- The three events observable on one instance's zoom deque. -/
inductive ZoomEvent where
  | enqueue
  | succeed
  | fail
deriving DecidableEq

/-- One step of `Statistics::requestZoom`'s deque discipline.
`enqueue`: `_zoomDeque.push_back(task)` and, if the deque was empty,
`_zoomDeque.front()()` — the task is invoked at once.
`succeed` (the `done` handler, lines 323-331): the consumer is resolved,
then `if (!_zoomDeque.empty()) { pop_front(); if (!empty()) front()(); }`.
`fail` (the `fail` handler, lines 332-334): only
`consumer.put_error_copy(...)` runs — the deque is left untouched.
A `succeed`/`fail` with nothing in flight cannot be delivered by the
transport and leaves the state unchanged. -/
def zoomStep (s : ZoomState) : ZoomEvent → ZoomState
  | .enqueue =>
      let n := s.enqueuedRev.length
      match s.queue with
      | [] =>
          ⟨[n], true, [n], n :: s.startedRev, s.erroredRev, n :: s.enqueuedRev⟩
      | x :: xs =>
          ⟨x :: (xs ++ [n]), s.headStarted, s.inflight, s.startedRev,
            s.erroredRev, n :: s.enqueuedRev⟩
  | .succeed =>
      match s.inflight, s.queue with
      | _ :: _, _ :: q2 =>
          match q2 with
          | [] => { s with queue := [], headStarted := false, inflight := [] }
          | u :: rest =>
              { s with
                queue := u :: rest
                headStarted := true
                inflight := [u]
                startedRev := u :: s.startedRev }
      | _ :: _, [] => { s with inflight := [] }
      | [], _ => s
  | .fail =>
      match s.inflight with
      | t :: _ => { s with inflight := [], erroredRev := t :: s.erroredRev }
      | [] => s

/-- Run a sequence of events from the fresh instance. -/
def zoomRun (es : List ZoomEvent) : ZoomState :=
  es.foldl zoomStep ZoomState.start

/-- Reachability invariant of the zoom deque: the submission history
splits into the popped (completed) tasks followed by the current deque;
the started tasks are the popped ones plus the head when it has been
invoked; at most one request is in flight, and only ever the invoked
head; an empty deque has no invoked head. -/
def ZoomInv (s : ZoomState) : Prop :=
  ∃ popped : List Nat,
    s.enqueuedRev.reverse = popped ++ s.queue
    ∧ s.startedRev.reverse
        = popped ++ (if s.headStarted then s.queue.take 1 else [])
    ∧ s.inflight.length ≤ 1
    ∧ (s.inflight = []
        ∨ (s.headStarted = true ∧ s.inflight = s.queue.take 1))
    ∧ (s.queue = [] → s.headStarted = false)

/-! ### MessageStatistics::request orchestration (lines 549-686)

The message-path orchestration chains three asynchronous steps:
`stats.getMessageStats` (failure degrades to empty graphs and
continues), `channels.getMessages` for the authoritative counters
(failure degrades to an empty `StatisticsMessageInteractionInfo` and
continues), and the first `PublicForwards` page, whose `done` handler is
the only place the caller's `done` callback fires; the `PublicForwards`
fail handler (line 456-458) only clears `_requestId`.  Each step's
transport outcome is an explicit `Except` input, and the model returns
the list of `done` invocations the call produces. -/

/-- Mirror of `Data::StatisticsMessageInteractionInfo` (fields the
orchestrator reads; default-constructed on fallback). -/
structure StatisticsMessageInteractionInfo where
  messageId : Int := 0
  storyId : Int := 0
  viewsCount : Int := 0
  forwardsCount : Int := 0
  reactionsCount : Int := 0
deriving DecidableEq

/-- Mirror of `Data::MessageStatistics`, the unified result delivered to
the `done` callback. -/
structure MessageStatisticsData where
  messageInteractionGraph : StatisticalGraph := {}
  reactionsByEmotionGraph : StatisticalGraph := {}
  publicForwards : Int := 0
  privateForwards : Int := 0
  views : Int := 0
  reactions : Int := 0
deriving DecidableEq

/-- Embedding of `MessageStatistics::request` on a message target: the
megagroup guard returns without dispatching; a failed stats fetch
continues with default graphs (line 682-684); a failed counters fetch
continues with a default info (line 622-624); the caller's `done` fires
only from the public-forwards `done` handler (lines 557-568), with
`publicForwards = slice.total` and
`privateForwards = info.forwardsCount - slice.total`.  The returned list
holds one entry per `done` invocation. -/
def messageStatsRequest (isMegagroup : Bool)
    (statsResponse : Except String (MTPStatsGraph × MTPStatsGraph))
    (countersResponse : Except String StatisticsMessageInteractionInfo)
    (forwardsResponse : Except String MTPmessages_Messages)
    (peerLoaded : Int → Bool) : List MessageStatisticsData :=
  if isMegagroup then []
  else
    let graphs : StatisticalGraph × StatisticalGraph :=
      match statsResponse with
      | .ok (viewsGraph, reactionsGraph) =>
          (StatisticalGraphFromTL viewsGraph,
            StatisticalGraphFromTL reactionsGraph)
      | .error _ => ({}, {})
    let info : StatisticsMessageInteractionInfo :=
      match countersResponse with
      | .ok i => i
      | .error _ => {}
    match forwardsResponse with
    | .ok result =>
        let pr := requestMessageDone peerLoaded {} 0 result
        [{ messageInteractionGraph := graphs.1
           reactionsByEmotionGraph := graphs.2
           publicForwards := pr.1.total
           privateForwards := info.forwardsCount - pr.1.total
           views := info.viewsCount
           reactions := info.reactionsCount }]
    | .error _ => []

/-! ## Theorems -/

/-- C7 counterexample: the claim's formula divides by the signed
`previous`.  At `(current, previous) = (0, -1)` the code computes
`std::abs((0 - (-1)) / -1.0 * 100) = 100`, while the claimed
`|current − previous| / previous × 100` is `-100`. -/
theorem growthRate_signed_divisor_counterexample :
    (StatisticalValueFromTL 0 (-1)).growthRatePercentage
      ≠ |(0 : ℚ) - (-1 : ℚ)| / (-1 : ℚ) * 100 := by
  norm_num [StatisticalValueFromTL]

/-- C7 (amended): `growthRatePercentage` is `0` when `previous = 0` and
`|current − previous| / |previous| × 100` otherwise, and is always
non-negative. -/
theorem growthRate_formula_and_nonneg :
    ∀ current previous : Int,
      (StatisticalValueFromTL current previous).growthRatePercentage
        = (if previous = 0 then 0
            else |(current : ℚ) - (previous : ℚ)| / |(previous : ℚ)| * 100)
      ∧ 0 ≤ (StatisticalValueFromTL current previous).growthRatePercentage := by
  intro c p
  refine ⟨?_, ?_⟩
  · by_cases hp : p = 0
    · simp [StatisticalValueFromTL, hp]
    · simp only [StatisticalValueFromTL, hp, if_false]
      rw [abs_mul, abs_div]
      norm_num
  · by_cases hp : p = 0
    · simp [StatisticalValueFromTL, hp]
    · simp only [StatisticalValueFromTL, hp, if_false]
      exact abs_nonneg _

/-- C4 counterexample: for a decoded `statsGraph` carrying a zoom token,
`StatisticalGraphFromTL` populates both the chart and the zoom token, so
the number of populated variants is not one. -/
theorem graph_two_variants_counterexample :
    ¬ (populatedVariantCount (StatisticalGraphFromTL
        (MTPStatsGraph.statsGraph "chartdata" (some "zoomtok"))) = 1) := by
  decide

/-- C4 (amended): the error variant is never populated together with
another variant, and the async shape populates only the token; but the
decoded-graph shape populates the chart and, whenever the server supplies
a non-empty `zoom_token`, the zoom token as well — chart data and zoom
token can be populated simultaneously. -/
theorem graph_variant_shape :
    ∀ tl : MTPStatsGraph,
      match tl with
      | .statsGraph _ zt =>
          chartPopulated (StatisticalGraphFromTL tl)
          ∧ ¬ errorPopulated (StatisticalGraphFromTL tl)
          ∧ (zoomTokenPopulated (StatisticalGraphFromTL tl) ↔ zt.getD "" ≠ "")
      | .statsGraphAsync t =>
          ¬ chartPopulated (StatisticalGraphFromTL tl)
          ∧ ¬ errorPopulated (StatisticalGraphFromTL tl)
          ∧ (zoomTokenPopulated (StatisticalGraphFromTL tl) ↔ t ≠ "")
      | .statsGraphError e =>
          ¬ chartPopulated (StatisticalGraphFromTL tl)
          ∧ ¬ zoomTokenPopulated (StatisticalGraphFromTL tl)
          ∧ (errorPopulated (StatisticalGraphFromTL tl) ↔ e ≠ "") := by
  intro tl
  cases tl <;>
    simp [StatisticalGraphFromTL, chartPopulated, errorPopulated,
      zoomTokenPopulated]

/-- C4 witness: applying the characterization at the error shape. -/
theorem graph_variant_shape_witness :
    errorPopulated (StatisticalGraphFromTL
      (MTPStatsGraph.statsGraphError "CHAT_ADMIN_REQUIRED")) :=
  (graph_variant_shape (MTPStatsGraph.statsGraphError
    "CHAT_ADMIN_REQUIRED")).2.2.mpr (by decide)

/-- C9: the boost-status premium numbers are safe: the member count is
non-negative, the percentage lies in `[0, 100]`, an absent
`premium_audience` yields `0` for both with no division, and the divisor
is `max total (max 0 part)`. -/
theorem boostsPremium_bounds :
    ∀ pa : Option PremiumAudience,
      0 ≤ premiumMemberCountOf pa
      ∧ 0 ≤ premiumMemberPercentageOf pa
      ∧ premiumMemberPercentageOf pa ≤ 100
      ∧ premiumMemberCountOf none = 0
      ∧ premiumMemberPercentageOf none = 0
      ∧ ∀ a : PremiumAudience,
          participantCountOf (some a) = max a.total (max 0 a.part) := by
  intro pa
  have hcount : 0 ≤ premiumMemberCountOf pa := by
    cases pa with
    | none => simp [premiumMemberCountOf]
    | some a => exact le_max_left 0 a.part
  refine ⟨hcount, ?_, ?_, rfl, ?_, fun a => rfl⟩
  · unfold premiumMemberPercentageOf
    by_cases h : 0 < participantCountOf pa
    · rw [if_pos h]
      apply div_nonneg
      · have : (0 : ℚ) ≤ (premiumMemberCountOf pa : ℚ) := by
          exact_mod_cast hcount
        linarith
      · have : (0 : ℚ) < (participantCountOf pa : ℚ) := by exact_mod_cast h
        linarith
    · rw [if_neg h]
  · unfold premiumMemberPercentageOf
    by_cases h : 0 < participantCountOf pa
    · rw [if_pos h]
      have hcp : premiumMemberCountOf pa ≤ participantCountOf pa := by
        cases pa with
        | none => simp [participantCountOf] at h
        | some a => exact le_max_right a.total _
      have hpq : (0 : ℚ) < (participantCountOf pa : ℚ) := by exact_mod_cast h
      rw [div_le_iff₀ hpq]
      have : (premiumMemberCountOf pa : ℚ) ≤ (participantCountOf pa : ℚ) := by
        exact_mod_cast hcp
      linarith
    · rw [if_neg h]
      norm_num
  · unfold premiumMemberPercentageOf
    simp [participantCountOf]

/-- C3: for a message-target page, `allLoaded` is true exactly when the
response shape is the full list, the channel-scoped list or not-modified,
or a partial slice whose `next_rate` equals the request's cursor; any
other partial slice (new rate, or no `next_rate` at all) gives
`allLoaded = false`. -/
theorem requestMessage_allLoaded_characterization :
    ∀ (peerLoaded : Int → Bool) (token : OffsetToken) (lastTotal : Int)
      (resp : MTPmessages_Messages),
      ((requestMessageDone peerLoaded token lastTotal resp).1.allLoaded = true
        ↔ match resp with
          | .messagesSlice nextRate _ _ => nextRate = some token.rate
          | _ => True) := by
  intro pl token lt resp
  cases resp with
  | messages msgs => simp [requestMessageDone]
  | messagesSlice nr cnt msgs =>
      cases nr with
      | none => simp [requestMessageDone]
      | some r =>
          by_cases h : r = token.rate <;> simp [requestMessageDone, h]
  | channelMessages cnt msgs => simp [requestMessageDone]
  | messagesNotModified => simp [requestMessageDone]

/-- C1 counterexample: when the final public-forwards sub-step fails, the
`done` callback of `MessageStatistics::request` never fires (its fail
handler only clears `_requestId`), so the caller does not receive exactly
one terminal signal. -/
theorem messageStats_forwards_failure_counterexample :
    ¬ ((messageStatsRequest false
          (Except.ok (MTPStatsGraph.statsGraphAsync "tok",
            MTPStatsGraph.statsGraphAsync "tok"))
          (Except.ok {})
          (Except.error "INTERNAL_SERVER_ERROR")
          (fun _ => true)).length = 1) := by
  decide

/-- C1 (amended): on a non-megagroup channel, `done` fires exactly once
iff the public-forwards page fetch succeeds; failures of the
message-stats fetch and the private-count lookup are tolerated (the
orchestration continues with empty fallbacks), but a public-forwards
failure produces no terminal signal at all.  On a megagroup the call
returns without dispatching. -/
theorem messageStats_done_count :
    ∀ (isMegagroup : Bool)
      (statsResponse : Except String (MTPStatsGraph × MTPStatsGraph))
      (countersResponse : Except String StatisticsMessageInteractionInfo)
      (forwardsResponse : Except String MTPmessages_Messages)
      (peerLoaded : Int → Bool),
      (messageStatsRequest isMegagroup statsResponse countersResponse
          forwardsResponse peerLoaded).length
        = (if isMegagroup then 0
            else match forwardsResponse with
              | .ok _ => 1
              | .error _ => 0) := by
  intro mg sr cr fr pl
  cases mg <;> cases fr <;> simp [messageStatsRequest]

/-- Helper: the total delivered by the message-path handler is the max of
the previous running total and the shape's `fullCount`. -/
lemma requestMessageDone_total (pl : Int → Bool) (token : OffsetToken)
    (lt : Int) (resp : MTPmessages_Messages) :
    (requestMessageDone pl token lt resp).1.total
      = max lt (messageFullCount pl resp) := by
  cases resp <;> simp [requestMessageDone, messageFullCount]

/-- Helper: the new `_lastTotal` equals the delivered total
(message path). -/
lemma requestMessageDone_snd (pl : Int → Bool) (token : OffsetToken)
    (lt : Int) (resp : MTPmessages_Messages) :
    (requestMessageDone pl token lt resp).2
      = (requestMessageDone pl token lt resp).1.total := by
  cases resp <;> simp [requestMessageDone]

/-- Helper: the total delivered by the story-path handler. -/
lemma requestStoryDone_total (pl : Int → Bool) (token : OffsetToken)
    (lt : Int) (resp : MTPstats_PublicForwards) :
    (requestStoryDone pl token lt resp).1.total = max lt resp.count := rfl

/-- Helper: the new `_lastTotal` equals the delivered total (story
path). -/
lemma requestStoryDone_snd (pl : Int → Bool) (token : OffsetToken)
    (lt : Int) (resp : MTPstats_PublicForwards) :
    (requestStoryDone pl token lt resp).2
      = (requestStoryDone pl token lt resp).1.total := rfl

/-- Helper: totals delivered over a run of message pages form a chain
under `≤` and dominate the incoming running total. -/
lemma runMessageRequests_chain (pl : Int → Bool) :
    ∀ (rs : List (OffsetToken × MTPmessages_Messages)) (lt : Int),
      List.Chain' (· ≤ ·) (runMessageRequests pl lt rs)
      ∧ ∀ x, (runMessageRequests pl lt rs).head? = some x → lt ≤ x := by
  intro rs
  induction rs with
  | nil =>
      intro lt
      refine ⟨by simp [runMessageRequests], fun x hx => ?_⟩
      simp [runMessageRequests] at hx
  | cons hd rest ih =>
      intro lt
      obtain ⟨tok, r⟩ := hd
      have hrun : runMessageRequests pl lt ((tok, r) :: rest)
          = (requestMessageDone pl tok lt r).1.total
            :: runMessageRequests pl (requestMessageDone pl tok lt r).2 rest := by
        simp [runMessageRequests]
      refine ⟨?_, fun x hx => ?_⟩
      · rw [hrun, List.chain'_cons']
        refine ⟨fun b hb => ?_, (ih _).1⟩
        have hb' : (runMessageRequests pl (requestMessageDone pl tok lt r).2
            rest).head? = some b := hb
        have := (ih _).2 b hb'
        rw [requestMessageDone_snd] at this
        exact this
      · rw [hrun] at hx
        simp only [List.head?_cons, Option.some.injEq] at hx
        subst hx
        rw [requestMessageDone_total]
        exact le_max_left _ _

/-- Helper: totals delivered over a run of story pages form a chain
under `≤` and dominate the incoming running total. -/
lemma runStoryRequests_chain (pl : Int → Bool) :
    ∀ (rs : List (OffsetToken × MTPstats_PublicForwards)) (lt : Int),
      List.Chain' (· ≤ ·) (runStoryRequests pl lt rs)
      ∧ ∀ x, (runStoryRequests pl lt rs).head? = some x → lt ≤ x := by
  intro rs
  induction rs with
  | nil =>
      intro lt
      refine ⟨by simp [runStoryRequests], fun x hx => ?_⟩
      simp [runStoryRequests] at hx
  | cons hd rest ih =>
      intro lt
      obtain ⟨tok, r⟩ := hd
      have hrun : runStoryRequests pl lt ((tok, r) :: rest)
          = (requestStoryDone pl tok lt r).1.total
            :: runStoryRequests pl (requestStoryDone pl tok lt r).2 rest := by
        simp [runStoryRequests]
      refine ⟨?_, fun x hx => ?_⟩
      · rw [hrun, List.chain'_cons']
        refine ⟨fun b hb => ?_, (ih _).1⟩
        have hb' : (runStoryRequests pl (requestStoryDone pl tok lt r).2
            rest).head? = some b := hb
        have := (ih _).2 b hb'
        rw [requestStoryDone_snd] at this
        exact this
      · rw [hrun] at hx
        simp only [List.head?_cons, Option.some.injEq] at hx
        subst hx
        rw [requestStoryDone_total]
        exact le_max_left _ _

/-- C5: each delivered slice's total is the max of the previously known
running total and the count the handler extracts from the response, and
hence the totals delivered across successive pages of one
`PublicForwards` instance (message or story target) are monotonically
non-decreasing. -/
theorem publicForwards_total_monotone :
    ∀ peerLoaded : Int → Bool,
      (∀ (token : OffsetToken) (lastTotal : Int) (resp : MTPmessages_Messages),
          (requestMessageDone peerLoaded token lastTotal resp).1.total
            = max lastTotal (messageFullCount peerLoaded resp))
      ∧ (∀ (token : OffsetToken) (lastTotal : Int)
            (resp : MTPstats_PublicForwards),
          (requestStoryDone peerLoaded token lastTotal resp).1.total
            = max lastTotal resp.count)
      ∧ (∀ (lastTotal : Int) (rs : List (OffsetToken × MTPmessages_Messages)),
          List.Chain' (· ≤ ·) (runMessageRequests peerLoaded lastTotal rs))
      ∧ (∀ (lastTotal : Int)
            (rs : List (OffsetToken × MTPstats_PublicForwards)),
          List.Chain' (· ≤ ·) (runStoryRequests peerLoaded lastTotal rs)) := by
  intro pl
  exact ⟨fun token lt resp => requestMessageDone_total pl token lt resp,
    fun token lt resp => requestStoryDone_total pl token lt resp,
    fun lt rs => (runMessageRequests_chain pl rs lt).1,
    fun lt rs => (runStoryRequests_chain pl rs lt).1⟩

/-- Helper: unfolding `trackedPairs` over a cons cell. -/
@[simp] lemma trackedPairs_cons (dc : Nat) (ids : List Nat)
    (rest : List (Nat × List Nat)) :
    trackedPairs ((dc, ids) :: rest)
      = ids.map (fun j => (dc, j)) ++ trackedPairs rest := rfl

/-- Helper: `trackedPairs` of the empty map. -/
@[simp] lemma trackedPairs_nil : trackedPairs [] = [] := rfl

/-- Helper: the inner sweep keeps exactly the pending ids and removes
exactly the non-pending ones, in order. -/
lemma sweepIds_eq (pending : Nat → Bool) :
    ∀ ids : List Nat,
      sweepIds pending ids
        = (ids.filter pending, ids.filter (fun j => !pending j)) := by
  intro ids
  induction ids with
  | nil => rfl
  | cons j rest ih =>
      by_cases hp : pending j <;>
        simp [sweepIds, ih, List.filter_cons, hp]

/-- Helper: membership in the swept map: a pair survives iff it was
tracked and is still pending. -/
lemma checkAux_requests_mem (pending : Nat → Bool) :
    ∀ (reqs : List (Nat × List Nat)) (a b : Nat),
      (a, b) ∈ trackedPairs (checkRequestsAux pending reqs).1
        ↔ ((a, b) ∈ trackedPairs reqs ∧ pending b = true) := by
  intro reqs
  induction reqs with
  | nil => intro a b; simp [checkRequestsAux]
  | cons hd rest ih =>
      intro a b
      obtain ⟨dc, ids⟩ := hd
      have hfst : (checkRequestsAux pending ((dc, ids) :: rest)).1
          = if (ids.filter pending).isEmpty
            then (checkRequestsAux pending rest).1
            else (dc, ids.filter pending) :: (checkRequestsAux pending rest).1 := by
        simp [checkRequestsAux, sweepIds_eq]
      by_cases hk : (ids.filter pending).isEmpty
      · have hnil : ids.filter pending = [] := by
          simpa [List.isEmpty_iff] using hk
        have hno : ∀ j ∈ ids, ¬ pending j = true := by
          rw [List.filter_eq_nil_iff] at hnil
          exact hnil
        rw [hfst, if_pos hk, ih]
        simp only [trackedPairs_cons, List.mem_append, List.mem_map,
          Prod.mk.injEq]
        constructor
        · rintro ⟨hm, hp⟩
          exact ⟨Or.inr hm, hp⟩
        · rintro ⟨hm | hm, hp⟩
          · obtain ⟨j, hj, _, rfl⟩ := hm
            exact absurd hp (hno j hj)
          · exact ⟨hm, hp⟩
      · rw [hfst, if_neg hk]
        simp only [trackedPairs_cons, List.mem_append, List.mem_map,
          List.mem_filter, Prod.mk.injEq, ih]
        constructor
        · rintro (⟨j, ⟨hj, hpj⟩, hdc, rfl⟩ | ⟨hm, hp⟩)
          · exact ⟨Or.inl ⟨j, hj, hdc, rfl⟩, hpj⟩
          · exact ⟨Or.inr hm, hp⟩
        · rintro ⟨⟨j, hj, hdc, rfl⟩ | hm, hp⟩
          · exact Or.inl ⟨j, ⟨hj, hp⟩, hdc, rfl⟩
          · exact Or.inr ⟨hm, hp⟩

/-- Helper: membership in the unregistered list: a pair is unregistered
iff it was tracked and the transport no longer reports it pending. -/
lemma checkAux_unregistered_mem (pending : Nat → Bool) :
    ∀ (reqs : List (Nat × List Nat)) (a b : Nat),
      (a, b) ∈ (checkRequestsAux pending reqs).2
        ↔ ((a, b) ∈ trackedPairs reqs ∧ pending b = false) := by
  intro reqs
  induction reqs with
  | nil => intro a b; simp [checkRequestsAux]
  | cons hd rest ih =>
      intro a b
      obtain ⟨dc, ids⟩ := hd
      have hsnd : (checkRequestsAux pending ((dc, ids) :: rest)).2
          = (ids.filter (fun j => !pending j)).map (fun j => (dc, j))
            ++ (checkRequestsAux pending rest).2 := by
        simp [checkRequestsAux, sweepIds_eq]
      rw [hsnd]
      simp only [trackedPairs_cons, List.mem_append, List.mem_map,
        List.mem_filter, Prod.mk.injEq, ih, Bool.not_eq_true']
      constructor
      · rintro (⟨j, ⟨hj, hpj⟩, hdc, rfl⟩ | ⟨hm, hp⟩)
        · exact ⟨Or.inl ⟨j, hj, hdc, rfl⟩, hpj⟩
        · exact ⟨Or.inr hm, hp⟩
      · rintro ⟨⟨j, hj, hdc, rfl⟩ | hm, hp⟩
        · exact Or.inl ⟨j, ⟨hj, hp⟩, hdc, rfl⟩
        · exact Or.inr ⟨hm, hp⟩

/-- Helper: after the sweep every remaining shard entry is non-empty. -/
lemma checkAux_shards_nonempty (pending : Nat → Bool) :
    ∀ reqs : List (Nat × List Nat),
      ∀ p ∈ (checkRequestsAux pending reqs).1, p.2 ≠ [] := by
  intro reqs
  induction reqs with
  | nil => intro p hp; simp [checkRequestsAux] at hp
  | cons hd rest ih =>
      intro p hp
      obtain ⟨dc, ids⟩ := hd
      have hfst : (checkRequestsAux pending ((dc, ids) :: rest)).1
          = if (ids.filter pending).isEmpty
            then (checkRequestsAux pending rest).1
            else (dc, ids.filter pending) :: (checkRequestsAux pending rest).1 := by
        simp [checkRequestsAux, sweepIds_eq]
      rw [hfst] at hp
      by_cases hk : (ids.filter pending).isEmpty
      · rw [if_pos hk] at hp
        exact ih p hp
      · rw [if_neg hk] at hp
        rcases List.mem_cons.mp hp with hpe | hpm
        · subst hpe
          simpa [List.isEmpty_iff] using hk
        · exact ih p hpm

/-- Helper: a map whose shard entries are all non-empty has no tracked
pairs iff it is itself empty. -/
lemma trackedPairs_eq_nil_iff :
    ∀ l : List (Nat × List Nat), (∀ p ∈ l, p.2 ≠ []) →
      (trackedPairs l = [] ↔ l = []) := by
  intro l
  cases l with
  | nil => intro _; simp
  | cons hd rest =>
      intro hne
      obtain ⟨dc, ids⟩ := hd
      have hids : ids ≠ [] := hne (dc, ids) (List.mem_cons_self _ _)
      constructor
      · intro hp
        rw [trackedPairs_cons, List.append_eq_nil, List.map_eq_nil_iff] at hp
        exact absurd hp.1 hids
      · intro hp
        exact absurd hp (List.cons_ne_nil _ _)

/-- C6: one run of `checkRequests` unregisters and removes exactly the
tracked ids the transport reports as no longer pending, keeps only
non-empty shard entries, and cancels the sweep timer iff the tracked set
is empty after the sweep. -/
theorem checkRequests_sweep_characterization :
    ∀ (pending : Nat → Bool) (reqs : List (Nat × List Nat)),
      (∀ dc j, (dc, j) ∈ trackedPairs (checkRequests pending reqs).requests
          ↔ ((dc, j) ∈ trackedPairs reqs ∧ pending j = true))
      ∧ (∀ dc j, (dc, j) ∈ (checkRequests pending reqs).unregistered
          ↔ ((dc, j) ∈ trackedPairs reqs ∧ pending j = false))
      ∧ ((checkRequests pending reqs).requests.all
          (fun p => !p.2.isEmpty) = true)
      ∧ ((checkRequests pending reqs).timerCancelled = true
          ↔ trackedPairs (checkRequests pending reqs).requests = []) := by
  intro pending reqs
  refine ⟨fun dc j => checkAux_requests_mem pending reqs dc j,
    fun dc j => checkAux_unregistered_mem pending reqs dc j, ?_, ?_⟩
  · rw [List.all_eq_true]
    intro p hp
    have := checkAux_shards_nonempty pending reqs p hp
    simpa [List.isEmpty_iff] using this
  · have hne := checkAux_shards_nonempty pending reqs
    have hiff := trackedPairs_eq_nil_iff _ hne
    show ((checkRequestsAux pending reqs).1.isEmpty = true)
      ↔ trackedPairs (checkRequestsAux pending reqs).1 = []
    rw [List.isEmpty_iff, hiff]

/-- Helper: membership in the map after `_requests[dcId].emplace(id)`. -/
lemma mem_addTracked (dc rid : Nat) :
    ∀ (reqs : List (Nat × List Nat)) (a b : Nat),
      (a, b) ∈ trackedPairs (addTracked dc rid reqs)
        ↔ ((a, b) ∈ trackedPairs reqs ∨ (a = dc ∧ b = rid)) := by
  intro reqs
  induction reqs with
  | nil =>
      intro a b
      simp [addTracked, Prod.mk.injEq, and_comm]
  | cons hd rest ih =>
      intro a b
      obtain ⟨d, ids⟩ := hd
      have hunfold : addTracked dc rid ((d, ids) :: rest)
          = if d = dc then (d, if rid ∈ ids then ids else ids ++ [rid]) :: rest
            else (d, ids) :: addTracked dc rid rest := rfl
      rw [hunfold]
      by_cases hddc : d = dc
      · subst hddc
        rw [if_pos rfl]
        by_cases hin : rid ∈ ids
        · rw [if_pos hin]
          simp only [trackedPairs_cons, List.mem_append, List.mem_map,
            Prod.mk.injEq]
          constructor
          · exact fun hm => Or.inl hm
          · rintro ((hm | hm) | ⟨rfl, rfl⟩)
            · exact Or.inl hm
            · exact Or.inr hm
            · exact Or.inl ⟨b, hin, rfl, rfl⟩
        · rw [if_neg hin]
          simp only [trackedPairs_cons, List.mem_append, List.mem_map,
            List.mem_singleton, Prod.mk.injEq]
          constructor
          · rintro (⟨j, hj | rfl, hda, rfl⟩ | hm)
            · exact Or.inl (Or.inl ⟨j, hj, hda, rfl⟩)
            · exact Or.inr ⟨hda.symm, rfl⟩
            · exact Or.inl (Or.inr hm)
          · rintro ((⟨j, hj, hda, rfl⟩ | hm) | ⟨rfl, rfl⟩)
            · exact Or.inl ⟨j, Or.inl hj, hda, rfl⟩
            · exact Or.inr hm
            · exact Or.inl ⟨b, Or.inr rfl, rfl, rfl⟩
      · rw [if_neg hddc]
        simp only [trackedPairs_cons, List.mem_append, ih]
        tauto

/-- C10: `makeRequest` registers the request in the ledger, tracks it and
activates the sweep timer iff the resolved stats shard id is non-zero;
with shard id `0` the request goes to the default destination untracked,
and is then neither swept by `checkRequests` nor unregistered by the
destructor. -/
theorem makeRequest_tracking_iff_shard :
    ∀ (s : TrackerState) (dcId id : Nat),
      ((makeRequest s dcId id).registered = [] ↔ dcId = 0)
      ∧ ((makeRequest s dcId id).dest = RequestDest.defaultDc ↔ dcId = 0)
      ∧ ((makeRequest s dcId id).state.timerActive = true
          ↔ (¬ dcId = 0 ∨ s.timerActive = true))
      ∧ (∀ d j, (d, j) ∈ trackedPairs (makeRequest s dcId id).state.requests
          ↔ ((d, j) ∈ trackedPairs s.requests
              ∨ (¬ dcId = 0 ∧ d = dcId ∧ j = id)))
      ∧ (dcId = 0 →
          (∀ d, (d, id) ∉ trackedPairs s.requests) →
          (∀ (pending : Nat → Bool) (d : Nat),
              (d, id) ∉ (checkRequests pending
                (makeRequest s dcId id).state.requests).unregistered)
          ∧ (∀ d, (d, id) ∉ unregisterOnDestroy (makeRequest s dcId id).state)) := by
  intro s dcId id
  by_cases h : dcId = 0
  · subst h
    refine ⟨by simp [makeRequest], by simp [makeRequest],
      by simp [makeRequest], by simp [makeRequest], ?_⟩
    intro _ hnone
    constructor
    · intro pending d hmem
      simp only [makeRequest, ne_eq, not_true_eq_false, if_false] at hmem
      have := (checkAux_unregistered_mem pending s.requests d id).mp hmem
      exact hnone d this.1
    · intro d hmem
      simp only [makeRequest, ne_eq, not_true_eq_false, if_false,
        unregisterOnDestroy] at hmem
      exact hnone d hmem
  · refine ⟨by simp [makeRequest, h], by simp [makeRequest, h],
      by simp [makeRequest, h], ?_, fun h0 => absurd h0 h⟩
    intro d j
    have hreq : (makeRequest s dcId id).state.requests
        = addTracked dcId id s.requests := by
      simp [makeRequest, h]
    rw [hreq, mem_addTracked]
    constructor
    · rintro (hm | ⟨rfl, rfl⟩)
      · exact Or.inl hm
      · exact Or.inr ⟨h, rfl, rfl⟩
    · rintro (hm | ⟨_, rfl, rfl⟩)
      · exact Or.inl hm
      · exact Or.inr ⟨rfl, rfl⟩

/-- C10 witness: an untracked (shard id `0`) request id is not
unregistered on destruction. -/
theorem makeRequest_untracked_witness :
    (3, 5) ∉ unregisterOnDestroy (makeRequest ⟨[], false⟩ 0 5).state :=
  ((makeRequest_tracking_iff_shard ⟨[], false⟩ 0 5).2.2.2.2 rfl
    (fun d => by simp)).2 3

/-- Helper: the fresh instance satisfies the zoom-deque invariant. -/
lemma zoomInv_start : ZoomInv ZoomState.start := by
  exact ⟨[], by simp [ZoomState.start], by simp [ZoomState.start],
    by simp [ZoomState.start], Or.inl rfl, fun _ => rfl⟩

/-- Helper: each zoom event preserves the zoom-deque invariant. -/
lemma zoomInv_step (s : ZoomState) (e : ZoomEvent) (hs : ZoomInv s) :
    ZoomInv (zoomStep s e) := by
  obtain ⟨popped, henq, hstart, hlen, hin, hemp⟩ := hs
  cases e with
  | enqueue =>
      cases hq : s.queue with
      | nil =>
          have hhs : s.headStarted = false := hemp hq
          have hstep : zoomStep s .enqueue
              = ⟨[s.enqueuedRev.length], true, [s.enqueuedRev.length],
                s.enqueuedRev.length :: s.startedRev, s.erroredRev,
                s.enqueuedRev.length :: s.enqueuedRev⟩ := by
            simp [zoomStep, hq]
          rw [hq] at henq
          rw [hhs] at hstart
          simp only [List.append_nil, if_false] at henq hstart
          refine ⟨popped, ?_, ?_, ?_, ?_, ?_⟩
          · rw [hstep]
            simp [henq]
          · rw [hstep]
            simp [hstart]
          · rw [hstep]
            simp
          · rw [hstep]
            exact Or.inr ⟨rfl, rfl⟩
          · rw [hstep]
            intro h
            exact absurd h (List.cons_ne_nil _ _)
      | cons x xs =>
          have hstep : zoomStep s .enqueue
              = ⟨x :: (xs ++ [s.enqueuedRev.length]), s.headStarted,
                s.inflight, s.startedRev, s.erroredRev,
                s.enqueuedRev.length :: s.enqueuedRev⟩ := by
            simp [zoomStep, hq]
          rw [hq] at henq hstart hin
          refine ⟨popped, ?_, ?_, ?_, ?_, ?_⟩
          · rw [hstep]
            simp only [List.reverse_cons, henq, List.append_assoc,
              List.cons_append, List.singleton_append]
          · rw [hstep]
            simpa using hstart
          · rw [hstep]
            exact hlen
          · rw [hstep]
            rcases hin with hi | ⟨hh, hi⟩
            · exact Or.inl hi
            · exact Or.inr ⟨hh, by simpa using hi⟩
          · rw [hstep]
            intro h
            exact absurd h (List.cons_ne_nil _ _)
  | succeed =>
      cases hi : s.inflight with
      | nil =>
          cases hq : s.queue with
          | nil =>
              have hstep : zoomStep s .succeed = s := by
                simp [zoomStep, hi, hq]
              rw [hstep]
              exact ⟨popped, henq, hstart, hlen, hin, hemp⟩
          | cons x xs =>
              have hstep : zoomStep s .succeed = s := by
                simp [zoomStep, hi, hq]
              rw [hstep]
              exact ⟨popped, henq, hstart, hlen, hin, hemp⟩
      | cons t irest =>
          have hirest : irest = [] := by
            rw [hi] at hlen
            simpa [List.length_cons, Nat.succ_le_succ_iff] using hlen
          subst hirest
          have hin' : s.headStarted = true ∧ [t] = s.queue.take 1 := by
            rcases hin with hbad | ⟨hh, hq1⟩
            · rw [hi] at hbad
              exact absurd hbad (List.cons_ne_nil _ _)
            · rw [hi] at hq1
              exact ⟨hh, hq1⟩
          obtain ⟨hhs, hq1⟩ := hin'
          cases hq : s.queue with
          | nil =>
              rw [hq] at hq1
              simp at hq1
          | cons a q2 =>
              rw [hq] at hq1
              simp only [List.take_succ_cons, List.take_zero] at hq1
              have hat : a = t := by
                injection hq1 with h1 _
                exact h1.symm
              subst hat
              cases hq2 : q2 with
              | nil =>
                  subst hq2
                  have hstep : zoomStep s .succeed
                      = { s with
                          queue := []
                          headStarted := false
                          inflight := [] } := by
                    simp [zoomStep, hi, hq]
                  rw [hq] at henq
                  rw [hhs, hq] at hstart
                  refine ⟨popped ++ [a], ?_, ?_, ?_, ?_, ?_⟩
                  · rw [hstep]
                    simp only [henq]
                    simp
                  · rw [hstep]
                    simp only [hstart]
                    simp
                  · rw [hstep]
                    simp
                  · rw [hstep]
                    exact Or.inl rfl
                  · rw [hstep]
                    intro _
                    rfl
              | cons u rest2 =>
                  subst hq2
                  have hstep : zoomStep s .succeed
                      = { s with
                          queue := u :: rest2
                          headStarted := true
                          inflight := [u]
                          startedRev := u :: s.startedRev } := by
                    simp [zoomStep, hi, hq]
                  rw [hq] at henq
                  rw [hhs, hq] at hstart
                  refine ⟨popped ++ [a], ?_, ?_, ?_, ?_, ?_⟩
                  · rw [hstep]
                    simp [henq]
                  · rw [hstep]
                    simp only [List.reverse_cons, hstart, if_true,
                      List.take_succ_cons, List.take_zero,
                      List.append_assoc, List.cons_append,
                      List.singleton_append]
                  · rw [hstep]
                    simp
                  · rw [hstep]
                    exact Or.inr ⟨rfl, rfl⟩
                  · rw [hstep]
                    intro h
                    exact absurd h (List.cons_ne_nil _ _)
  | fail =>
      cases hi : s.inflight with
      | nil =>
          have hstep : zoomStep s .fail = s := by
            simp [zoomStep, hi]
          rw [hstep]
          exact ⟨popped, henq, hstart, hlen, hin, hemp⟩
      | cons t irest =>
          have hstep : zoomStep s .fail
              = { s with
                  inflight := []
                  erroredRev := t :: s.erroredRev } := by
            simp [zoomStep, hi]
          refine ⟨popped, ?_, ?_, ?_, ?_, ?_⟩
          · rw [hstep]
            exact henq
          · rw [hstep]
            exact hstart
          · rw [hstep]
            simp
          · rw [hstep]
            exact Or.inl rfl
          · rw [hstep]
            exact hemp

/-- Helper: every reachable zoom-deque state satisfies the invariant. -/
lemma zoomInv_run : ∀ es : List ZoomEvent, ZoomInv (zoomRun es) := by
  have haux : ∀ (es : List ZoomEvent) (s : ZoomState),
      ZoomInv s → ZoomInv (es.foldl zoomStep s) := by
    intro es
    induction es with
    | nil => exact fun s hs => hs
    | cons e rest ih =>
        intro s hs
        exact ih (zoomStep s e) (zoomInv_step s e hs)
  intro es
  exact haux es ZoomState.start zoomInv_start

/-- C8: over any event sequence on one `Statistics` instance, at most
one zoom request is ever in flight, the started tasks are exactly an
initial segment of the tasks in submission order (strict FIFO, no
reordering), and every submitted task is either already started or still
waiting in the deque (no cancellation of queued tasks). -/
theorem zoom_fifo_single_flight :
    ∀ es : List ZoomEvent,
      (zoomRun es).inflight.length ≤ 1
      ∧ (zoomRun es).startedRev.reverse
          = (zoomRun es).enqueuedRev.reverse.take (zoomRun es).startedRev.length
      ∧ (∀ t, t ∈ (zoomRun es).enqueuedRev
          → (t ∈ (zoomRun es).startedRev ∨ t ∈ (zoomRun es).queue)) := by
  intro es
  obtain ⟨popped, henq, hstart, hlen, _, _⟩ := zoomInv_run es
  refine ⟨hlen, ?_, ?_⟩
  · have hlen2 : (zoomRun es).startedRev.length
        = popped.length
          + (if (zoomRun es).headStarted then (zoomRun es).queue.take 1
              else []).length := by
      rw [← List.length_reverse (zoomRun es).startedRev, hstart,
        List.length_append]
    rw [hstart, henq, hlen2]
    by_cases hh : (zoomRun es).headStarted = true
    · rw [if_pos hh]
      cases hq : (zoomRun es).queue with
      | nil => simp
      | cons x xs =>
          have h1 : (popped ++ x :: xs).take (popped.length + 1)
              = popped ++ (x :: xs).take 1 :=
            @List.take_append _ popped (x :: xs) 1
          simp only [List.take_succ_cons, List.take_zero] at h1
          simp [h1]
    · rw [if_neg hh]
      simp only [List.length_nil, Nat.add_zero, List.append_nil]
      exact (List.take_left popped (zoomRun es).queue).symm
  · intro t ht
    have ht' : t ∈ (zoomRun es).enqueuedRev.reverse := by
      rwa [List.mem_reverse]
    rw [henq] at ht'
    rcases List.mem_append.mp ht' with hp | hq
    · left
      have : t ∈ (zoomRun es).startedRev.reverse := by
        rw [hstart]
        exact List.mem_append.mpr (Or.inl hp)
      rwa [List.mem_reverse] at this
    · right
      exact hq

/-- C8 witness: after two submissions, the second task has either been
started or is still queued. -/
theorem zoom_fifo_single_flight_witness :
    1 ∈ (zoomRun [ZoomEvent.enqueue, ZoomEvent.enqueue]).startedRev
    ∨ 1 ∈ (zoomRun [ZoomEvent.enqueue, ZoomEvent.enqueue]).queue :=
  (zoom_fifo_single_flight [ZoomEvent.enqueue, ZoomEvent.enqueue]).2.2 1
    (by decide)

/-- C2 counterexample: after two submissions and a failure of the head
task, the head is still at the front of the deque and the second task has
not been started — the failing head is not popped and the next queued
task does not run, contrary to the claim. -/
theorem zoom_fail_stalls_counterexample :
    (zoomRun [ZoomEvent.enqueue, ZoomEvent.enqueue, ZoomEvent.fail]).queue
      = [0, 1]
    ∧ ¬ (1 ∈ (zoomRun
        [ZoomEvent.enqueue, ZoomEvent.enqueue, ZoomEvent.fail]).startedRev) := by
  constructor
  · rfl
  · decide

/-- C2 (amended): when the in-flight head task fails, its consumer is
notified of the error, but the deque does not advance: the queue is left
unchanged (the completed head is not popped), no new task is started, and
nothing is in flight any more — subsequently queued tasks never run. -/
theorem zoom_fail_no_advance :
    ∀ (es : List ZoomEvent) (t : Nat),
      (zoomRun es).inflight = [t] →
      (zoomStep (zoomRun es) ZoomEvent.fail).queue = (zoomRun es).queue
      ∧ (zoomStep (zoomRun es) ZoomEvent.fail).startedRev
          = (zoomRun es).startedRev
      ∧ (zoomStep (zoomRun es) ZoomEvent.fail).erroredRev
          = t :: (zoomRun es).erroredRev
      ∧ (zoomStep (zoomRun es) ZoomEvent.fail).inflight = [] := by
  intro es t h
  have hstep : zoomStep (zoomRun es) ZoomEvent.fail
      = { zoomRun es with
          inflight := []
          erroredRev := t :: (zoomRun es).erroredRev } := by
    simp [zoomStep, h]
  rw [hstep]
  exact ⟨rfl, rfl, rfl, rfl⟩

/-- C2 witness: applying the no-advance theorem after a single
submission. -/
theorem zoom_fail_no_advance_witness :
    (zoomStep (zoomRun [ZoomEvent.enqueue]) ZoomEvent.fail).erroredRev
      = 0 :: (zoomRun [ZoomEvent.enqueue]).erroredRev :=
  (zoom_fail_no_advance [ZoomEvent.enqueue] 0 (by decide)).2.2.1

end ApiStatistics
